import Mathlib

/-!
# Verification of `web_widget_ckeditor` — text/HTML normalization heuristics

Shallow embedding of the logic of `src/static/src/js/field_ckeditor.js`:

* `_textToHtml` (lines 509–530): plain-text → HTML paragraph wrapping,
  modelled by `textToHtml` / `textToHtmlFallback` below;
* `isSet` (lines 89–100): HTML-emptiness heuristic, modelled by `isSet`
  (with `isEmptyJS` its boolean negation, the spec's `isEmpty`);
* `destroy` (lines 63–69): editor teardown, modelled by `destroy`;
* `_getCKEditorToolbarItems` (lines 145–208): toolbar configuration
  with fallback, modelled by `getCKEditorToolbarItems`.

Strings are handled through their underlying `List Char`; all JS string
primitives used by the source (regex split/replace on the fixed patterns,
first-occurrence `String.prototype.replace` with a string pattern, global
regex replace, `\s` character class) are given executable models that
follow the JS semantics: global replacement scans the original string
left-to-right over non-overlapping occurrences, string-pattern replacement
rewrites only the first occurrence.
-/

namespace WebWidgetCKEditor

/-- The JavaScript `\s` character class (ECMAScript WhiteSpace and
LineTerminator), as used by `/^\s*$/` and `/\s/g` in the source. -/
def jsWs (c : Char) : Bool :=
  c = ' ' || c = '\t' || c = '\n' || c = '\r' ||
  c.toNat = 0x0B || c.toNat = 0x0C ||
  c.toNat = 0xA0 || c.toNat = 0x1680 ||
  (0x2000 ≤ c.toNat && c.toNat ≤ 0x200A) ||
  c.toNat = 0x2028 || c.toNat = 0x2029 || c.toNat = 0x202F || c.toNat = 0x205F ||
  c.toNat = 0x3000 || c.toNat = 0xFEFF

/-- `value.match(/^\s*$/)` — the string is empty or all-whitespace. -/
def wsOnly (s : String) : Bool := s.data.all jsWs

/-- Is `pat` a prefix of `l`? (Helper for occurrence reasoning.) -/
def isPfx : List Char → List Char → Bool
  | [], _ => true
  | _ :: _, [] => false
  | a :: as, b :: bs => if a = b then isPfx as bs else false

/-- Does `pat` occur as a contiguous substring of the list? -/
def occursIn (pat : List Char) : List Char → Bool
  | [] => isPfx pat []
  | c :: rest => isPfx pat (c :: rest) || occursIn pat rest

/-- `value.split(/<br\/?>/).join("<br/></p><p>")` from `_textToHtml`:
every line-break marker (`<br>` or `<br/>`, leftmost first, the regex'
greedy `/?` taking `<br/>` whole) is replaced by the join string
`"<br/></p><p>"`. -/
def brReplace : List Char → List Char
  | '<' :: 'b' :: 'r' :: '/' :: '>' :: rest => "<br/></p><p>".data ++ brReplace rest
  | '<' :: 'b' :: 'r' :: '>' :: rest => "<br/></p><p>".data ++ brReplace rest
  | c :: rest => c :: brReplace rest
  | [] => []

/-- `.replace(/<p><\/p>/g, "")` — remove every (leftmost, non-overlapping)
occurrence of `"<p></p>"` in a single left-to-right pass, as the JS global
regex replace does. -/
def removePP : List Char → List Char
  | '<' :: 'p' :: '>' :: '<' :: '/' :: 'p' :: '>' :: rest => removePP rest
  | c :: rest => c :: removePP rest
  | [] => []

/-- `.replace("<p><p>", "<p>")` — a string pattern, so JS rewrites only the
first occurrence and leaves the rest of the string unscanned. -/
def fixOpen : List Char → List Char
  | '<' :: 'p' :: '>' :: '<' :: 'p' :: '>' :: rest => '<' :: 'p' :: '>' :: rest
  | c :: rest => c :: fixOpen rest
  | [] => []

/-- `.replace("<p><p ", "<p ")` — first occurrence only. -/
def fixOpenAttr : List Char → List Char
  | '<' :: 'p' :: '>' :: '<' :: 'p' :: ' ' :: rest => '<' :: 'p' :: ' ' :: rest
  | c :: rest => c :: fixOpenAttr rest
  | [] => []

/-- `.replace("</p></p>", "</p>")` — first occurrence only. -/
def fixClose : List Char → List Char
  | '<' :: '/' :: 'p' :: '>' :: '<' :: '/' :: 'p' :: '>' :: rest =>
      '<' :: '/' :: 'p' :: '>' :: rest
  | c :: rest => c :: fixClose rest
  | [] => []

/-- `value.split("&nbsp;").join("")` from `isSet` — remove every
(leftmost, non-overlapping) occurrence of the literal `"&nbsp;"`. -/
def removeNbsp : List Char → List Char
  | '&' :: 'n' :: 'b' :: 's' :: 'p' :: ';' :: rest => removeNbsp rest
  | c :: rest => c :: removeNbsp rest
  | [] => []

/-- `.replace(/\s/g, "")` — drop every JS whitespace character. -/
def removeWs (l : List Char) : List Char := l.filter (fun c => !jsWs c)

/-- The catch-branch of `_textToHtml` (lines 514–527): taken when reading
`$(text)[0].innerHTML` throws, i.e. the input is not parseable HTML. -/
def textToHtmlFallback (value : String) : String :=
  if wsOnly value then "<p><br/></p>"
  else
    let wrapped := "<p>".data ++ brReplace value.data ++ "</p>".data
    ⟨fixClose (fixOpenAttr (fixOpen (removePP wrapped)))⟩

/-- The values an Odoo `html` field can hold in `this.value`: a string, or
one of the falsy non-string values the framework produces for an unset
field (`false`, `null`, `undefined`). -/
inductive FieldValue where
  | str (s : String)
  | nullV
  | undef
  | jsFalse
  deriving DecidableEq

/-- `text || ""` — JS coerces every falsy input to the empty string. -/
def toStringOr : FieldValue → String
  | .str s => s
  | _ => ""

/-- Outcome of the parse probe `$(text)[0].innerHTML` (line 513).

The probe is a call into jQuery/DOM, outside this repository, so for
arbitrary non-blank strings its outcome is an oracle parameter.  Two cases
are environment-independent and are fixed here:
* a non-string (falsy) input gives an empty jQuery set, so the `[0]`
  access yields `undefined` and reading `.innerHTML` throws;
* an empty or whitespace-only string likewise selects no node
  (`$("")` is the empty set, and a blank selector matches nothing),
  so the probe throws as well. -/
def probeThrows (oracle : String → Bool) : FieldValue → Bool
  | .str s => if wsOnly s then true else oracle s
  | _ => true

/-- `_textToHtml` (lines 509–530): return the input unchanged when it
parses as HTML, otherwise apply the plain-text fallback transform. -/
def textToHtml (oracle : String → Bool) (text : FieldValue) : String :=
  let value := toStringOr text
  if probeThrows oracle text then textToHtmlFallback value else value

/-- The JS value returned by `isSet` (lines 89–100): the function returns
the result of a `&&`-chain, which is one of the original falsy value, a
string, a boolean, `null`, or a regex-match result — not necessarily a
boolean. -/
inductive JSRet where
  | strV (s : String)
  | boolV (b : Bool)
  | nullV
  | undefV
  | matchV (m : String)
  deriving DecidableEq

/-- `this.value.split("&nbsp;").join("").replace(/\s/g, "")`. -/
def stripped (s : String) : String := ⟨removeWs (removeNbsp s.data)⟩

/-- `value.match(/\S/)` — `null` when there is no non-whitespace
character, otherwise a (truthy) match holding the first one. -/
def jsMatchNonWs (s : String) : JSRet :=
  match s.data.find? (fun c => !jsWs c) with
  | some c => .matchV ⟨[c]⟩
  | none => .nullV

/-- `isSet` (lines 89–100), kept value-faithful: each `&&` short-circuit
returns the falsy value itself, and each `!==` comparison a boolean. -/
def isSet : FieldValue → JSRet
  | .nullV => .nullV
  | .undef => .undefV
  | .jsFalse => .boolV false
  | .str s =>
    if s = "" then .strV ""
    else
      let value := stripped s
      if value = "" then .strV ""
      else if value = "<p></p>" then .boolV false
      else if value = "<p><br></p>" then .boolV false
      else jsMatchNonWs value

/-- JS truthiness of the values `isSet` can return. -/
def truthy : JSRet → Bool
  | .strV "" => false
  | .strV _ => true
  | .boolV b => b
  | .nullV => false
  | .undefV => false
  | .matchV _ => true

/-- The spec's `isEmpty`: the boolean negation of `isSet`. -/
def isEmptyJS (v : FieldValue) : Bool := !truthy (isSet v)

/-- The widget state `destroy` (lines 63–69) acts on: the `this.ckeditor`
reference, plus an instrumentation counter for how often the editor's own
`destroy()` method has been invoked. -/
structure WidgetState where
  ckeditor : Option Nat
  editorDestroyCount : Nat
  deriving DecidableEq

/-- `destroy` (lines 63–69): `if (this.ckeditor) { this.ckeditor.destroy();
this.ckeditor = undefined; }`. -/
def destroy (w : WidgetState) : WidgetState :=
  match w.ckeditor with
  | some _ => { ckeditor := none, editorDestroyCount := w.editorDestroyCount + 1 }
  | none => w

/-- The separator class `[\s,]` of the toolbar split regex. -/
def isWsComma (c : Char) : Bool := jsWs c || c = ','

/-- Accumulator pass behind `splitRuns`. -/
def splitRunsAux : List Char → List Char → List (List Char)
  | [], acc => if acc = [] then [] else [acc.reverse]
  | c :: rest, acc =>
    if isWsComma c then
      if acc = [] then splitRunsAux rest []
      else acc.reverse :: splitRunsAux rest []
    else splitRunsAux rest (c :: acc)

/-- `toolbar.split(/[\s,]+/).filter((item) => item)` (line 149): splitting
on runs of whitespace/commas and dropping empty items leaves exactly the
maximal runs of non-separator characters. -/
def splitRuns (l : List Char) : List (List Char) := splitRunsAux l []

/-- The fixed default toolbar list (lines 161–207). -/
def defaultToolbarItems : List String :=
  ["undo", "redo", "findAndReplace", "pageBreak", "restrictedEditingException",
   "|", "heading", "|", "style", "|", "textPartLanguage", "|",
   "fontFamily", "fontSize", "fontColor", "fontBackgroundColor", "highlight",
   "|", "bold", "italic", "underline", "strikethrough", "superscript",
   "subscript", "removeFormat", "|", "alignment", "indent", "outdent", "|",
   "bulletedList", "numberedList", "todoList", "|", "link",
   "specialCharacters", "blockQuote", "insertTable", "imageUpload",
   "horizontalLine", "|", "code", "codeBlock", "htmlEmbed", "mediaEmbed"]

/-- Outcome of awaiting `getCKEditorConfigPromise`: the RPC rejected, or
resolved to a configuration whose `toolbar` member is absent (`none`) or a
string (where `""` is falsy, like absence). -/
inductive ConfigResult where
  | fetchFailure
  | ok (toolbar : Option String)
  deriving DecidableEq

/-- `_getCKEditorToolbarItems` (lines 145–208): a rejected promise is
caught (warnings logged) and, like a missing or empty `toolbar` value,
falls through to the default list; a truthy `toolbar` string is split on
runs of whitespace/commas with empty items filtered out. -/
def getCKEditorToolbarItems (res : ConfigResult) : List String :=
  match res with
  | .fetchFailure => defaultToolbarItems
  | .ok none => defaultToolbarItems
  | .ok (some t) =>
    if t = "" then defaultToolbarItems
    else (splitRuns t.data).map (fun r => (⟨r⟩ : String))

/-- JS falsiness of a field value: the inputs that `text || ""` coerces to
the empty string. -/
def jsFalsy : FieldValue → Bool
  | .str s => decide (s = "")
  | _ => true

/-- Intercalation of character-list segments with a separator, used to
describe inputs assembled from `<br>`-separated segments:
`interJoin sep [s1, ..., sn] = s1 ++ sep ++ ... ++ sep ++ sn`. -/
def interJoin (sep : List Char) : List (List Char) → List Char
  | [] => []
  | [s] => s
  | s :: rest => s ++ sep ++ interJoin sep rest

/-!
## Helper lemmas

Character-preservation lemmas: each replacement pass of `_textToHtml` and
`isSet` only ever deletes characters drawn from its fixed pattern, so any
other character of the input survives to the output.
-/

theorem mem_brReplace (c : Char) (h1 : c ≠ '<') (h2 : c ≠ 'b') (h3 : c ≠ 'r')
    (h4 : c ≠ '/') (h5 : c ≠ '>') : ∀ l : List Char, c ∈ l → c ∈ brReplace l := by
  intro l
  induction l using brReplace.induct with
  | case1 rest ih =>
    intro hc
    simp only [brReplace, List.mem_append]
    refine Or.inr (ih ?_)
    simp only [List.mem_cons] at hc
    rcases hc with h | h | h | h | h | h <;> simp_all
  | case2 rest ih =>
    intro hc
    simp only [brReplace, List.mem_append]
    refine Or.inr (ih ?_)
    simp only [List.mem_cons] at hc
    rcases hc with h | h | h | h | h <;> simp_all
  | case3 a rest hn1 hn2 ih =>
    intro hc
    rw [brReplace.eq_3 a rest hn1 hn2]
    simp only [List.mem_cons] at hc ⊢
    rcases hc with h | h
    · exact Or.inl h
    · exact Or.inr (ih h)
  | case4 => intro hc; simp at hc

theorem mem_removePP (c : Char) (h1 : c ≠ '<') (h2 : c ≠ 'p') (h3 : c ≠ '>')
    (h4 : c ≠ '/') : ∀ l : List Char, c ∈ l → c ∈ removePP l := by
  intro l
  induction l using removePP.induct with
  | case1 rest ih =>
    intro hc
    simp only [removePP]
    refine ih ?_
    simp only [List.mem_cons] at hc
    rcases hc with h | h | h | h | h | h | h | h <;> simp_all
  | case2 a rest hn ih =>
    intro hc
    rw [removePP.eq_2 a rest hn]
    simp only [List.mem_cons] at hc ⊢
    rcases hc with h | h
    · exact Or.inl h
    · exact Or.inr (ih h)
  | case3 => intro hc; simp at hc

theorem mem_fixOpen (c : Char) (h1 : c ≠ '<') (h2 : c ≠ 'p') (h3 : c ≠ '>') :
    ∀ l : List Char, c ∈ l → c ∈ fixOpen l := by
  intro l
  induction l using fixOpen.induct with
  | case1 rest =>
    intro hc
    simp only [fixOpen, List.mem_cons] at hc ⊢
    rcases hc with h | h | h | h | h | h | h <;> simp_all
  | case2 a rest hn ih =>
    intro hc
    rw [fixOpen.eq_2 a rest hn]
    simp only [List.mem_cons] at hc ⊢
    rcases hc with h | h
    · exact Or.inl h
    · exact Or.inr (ih h)
  | case3 => intro hc; simp at hc

theorem mem_fixOpenAttr (c : Char) (h1 : c ≠ '<') (h2 : c ≠ 'p') (h3 : c ≠ '>')
    (h4 : c ≠ ' ') : ∀ l : List Char, c ∈ l → c ∈ fixOpenAttr l := by
  intro l
  induction l using fixOpenAttr.induct with
  | case1 rest =>
    intro hc
    simp only [fixOpenAttr, List.mem_cons] at hc ⊢
    rcases hc with h | h | h | h | h | h | h <;> simp_all
  | case2 a rest hn ih =>
    intro hc
    rw [fixOpenAttr.eq_2 a rest hn]
    simp only [List.mem_cons] at hc ⊢
    rcases hc with h | h
    · exact Or.inl h
    · exact Or.inr (ih h)
  | case3 => intro hc; simp at hc

theorem mem_fixClose (c : Char) (h1 : c ≠ '<') (h2 : c ≠ '/') (h3 : c ≠ 'p')
    (h4 : c ≠ '>') : ∀ l : List Char, c ∈ l → c ∈ fixClose l := by
  intro l
  induction l using fixClose.induct with
  | case1 rest =>
    intro hc
    simp only [fixClose, List.mem_cons] at hc ⊢
    rcases hc with h | h | h | h | h | h | h | h | h <;> simp_all
  | case2 a rest hn ih =>
    intro hc
    rw [fixClose.eq_2 a rest hn]
    simp only [List.mem_cons] at hc ⊢
    rcases hc with h | h
    · exact Or.inl h
    · exact Or.inr (ih h)
  | case3 => intro hc; simp at hc

theorem mem_removeNbsp (c : Char) (h1 : c ≠ '&') (h2 : c ≠ 'n') (h3 : c ≠ 'b')
    (h4 : c ≠ 's') (h5 : c ≠ 'p') (h6 : c ≠ ';') :
    ∀ l : List Char, c ∈ l → c ∈ removeNbsp l := by
  intro l
  induction l using removeNbsp.induct with
  | case1 rest ih =>
    intro hc
    simp only [removeNbsp]
    refine ih ?_
    simp only [List.mem_cons] at hc
    rcases hc with h | h | h | h | h | h | h <;> simp_all
  | case2 a rest hn ih =>
    intro hc
    rw [removeNbsp.eq_2 a rest hn]
    simp only [List.mem_cons] at hc ⊢
    rcases hc with h | h
    · exact Or.inl h
    · exact Or.inr (ih h)
  | case3 => intro hc; simp at hc

/-!
Occurrence reasoning: when a pattern does not occur in a string, the
corresponding replacement pass is the identity; and occurrence tests can be
peeled over string parts that cannot start an occurrence.
-/

theorem isPfx_append_self : ∀ p t : List Char, isPfx p (p ++ t) = true := by
  intro p t
  induction p with
  | nil => simp [isPfx]
  | cons a as ih => simp [isPfx, ih]

theorem occursIn_cons_false {pat : List Char} {a : Char} {l : List Char}
    (h : occursIn pat (a :: l) = false) :
    isPfx pat (a :: l) = false ∧ occursIn pat l = false := by
  simpa [occursIn, Bool.or_eq_false_iff] using h

theorem fixOpen_id {l : List Char}
    (h : occursIn ['<', 'p', '>', '<', 'p', '>'] l = false) : fixOpen l = l := by
  induction l using fixOpen.induct with
  | case1 rest =>
    exfalso
    have : isPfx ['<', 'p', '>', '<', 'p', '>']
        ('<' :: 'p' :: '>' :: '<' :: 'p' :: '>' :: rest) = true := by
      simpa using isPfx_append_self ['<', 'p', '>', '<', 'p', '>'] rest
    simp [occursIn, this] at h
  | case2 a rest hn ih =>
    rw [fixOpen.eq_2 a rest hn]
    rw [ih (occursIn_cons_false h).2]
  | case3 => rfl

theorem removePP_id {l : List Char}
    (h : occursIn ['<', 'p', '>', '<', '/', 'p', '>'] l = false) : removePP l = l := by
  induction l using removePP.induct with
  | case1 rest ih =>
    exfalso
    have : isPfx ['<', 'p', '>', '<', '/', 'p', '>']
        ('<' :: 'p' :: '>' :: '<' :: '/' :: 'p' :: '>' :: rest) = true := by
      simpa using isPfx_append_self ['<', 'p', '>', '<', '/', 'p', '>'] rest
    simp [occursIn, this] at h
  | case2 a rest hn ih =>
    rw [removePP.eq_2 a rest hn]
    rw [ih (occursIn_cons_false h).2]
  | case3 => rfl

theorem fixOpenAttr_id {l : List Char}
    (h : occursIn ['<', 'p', '>', '<', 'p', ' '] l = false) : fixOpenAttr l = l := by
  induction l using fixOpenAttr.induct with
  | case1 rest =>
    exfalso
    have : isPfx ['<', 'p', '>', '<', 'p', ' ']
        ('<' :: 'p' :: '>' :: '<' :: 'p' :: ' ' :: rest) = true := by
      simpa using isPfx_append_self ['<', 'p', '>', '<', 'p', ' '] rest
    simp [occursIn, this] at h
  | case2 a rest hn ih =>
    rw [fixOpenAttr.eq_2 a rest hn]
    rw [ih (occursIn_cons_false h).2]
  | case3 => rfl

theorem fixClose_id {l : List Char}
    (h : occursIn ['<', '/', 'p', '>', '<', '/', 'p', '>'] l = false) : fixClose l = l := by
  induction l using fixClose.induct with
  | case1 rest =>
    exfalso
    have : isPfx ['<', '/', 'p', '>', '<', '/', 'p', '>']
        ('<' :: '/' :: 'p' :: '>' :: '<' :: '/' :: 'p' :: '>' :: rest) = true := by
      simpa using isPfx_append_self ['<', '/', 'p', '>', '<', '/', 'p', '>'] rest
    simp [occursIn, this] at h
  | case2 a rest hn ih =>
    rw [fixClose.eq_2 a rest hn]
    rw [ih (occursIn_cons_false h).2]
  | case3 => rfl

theorem occursIn_skip {ps s : List Char} (h : '<' ∉ s) (t : List Char) :
    occursIn ('<' :: ps) (s ++ t) = occursIn ('<' :: ps) t := by
  induction s with
  | nil => simp
  | cons a s' ih =>
    have ha : a ≠ '<' := fun e => h (by simp [e])
    have h' : '<' ∉ s' := fun e => h (by simp [e])
    have hpfx : isPfx ('<' :: ps) (a :: (s' ++ t)) = false := by
      simp [isPfx, (Ne.symm ha)]
    simp [occursIn, hpfx, ih h']

theorem brReplace_skip {s : List Char} (h : '<' ∉ s) (t : List Char) :
    brReplace (s ++ t) = s ++ brReplace t := by
  induction s with
  | nil => simp
  | cons a s' ih =>
    have ha : a ≠ '<' := fun e => h (by simp [e])
    have h' : '<' ∉ s' := fun e => h (by simp [e])
    have e1 : brReplace (a :: (s' ++ t)) = a :: brReplace (s' ++ t) := by
      refine brReplace.eq_3 a (s' ++ t) ?_ ?_
      · intro r e _; exact ha e
      · intro r e _; exact ha e
    simp [e1, ih h']

/-!
Peeling lemmas for the four replacement patterns over the wrapped shape
`"<p>" ++ segment ++ ("<br/></p><p>" ++ segment)* ++ "</p>"`: neither the
`"<p>"` opener nor a full separator can start an occurrence when the next
character is not `'<'`.
-/

theorem wrap_peel_ppEmpty {d : Char} (hd : d ≠ '<') (X : List Char) :
    occursIn ['<', 'p', '>', '<', '/', 'p', '>'] ('<' :: 'p' :: '>' :: d :: X) =
    occursIn ['<', 'p', '>', '<', '/', 'p', '>'] (d :: X) := by
  simp [occursIn, isPfx, Ne.symm hd]

theorem wrap_peel_ppOpen {d : Char} (hd : d ≠ '<') (X : List Char) :
    occursIn ['<', 'p', '>', '<', 'p', '>'] ('<' :: 'p' :: '>' :: d :: X) =
    occursIn ['<', 'p', '>', '<', 'p', '>'] (d :: X) := by
  simp [occursIn, isPfx, Ne.symm hd]

theorem wrap_peel_ppOpenAttr {d : Char} (hd : d ≠ '<') (X : List Char) :
    occursIn ['<', 'p', '>', '<', 'p', ' '] ('<' :: 'p' :: '>' :: d :: X) =
    occursIn ['<', 'p', '>', '<', 'p', ' '] (d :: X) := by
  simp [occursIn, isPfx, Ne.symm hd]

theorem wrap_peel_ppClose (d : Char) (X : List Char) :
    occursIn ['<', '/', 'p', '>', '<', '/', 'p', '>'] ('<' :: 'p' :: '>' :: d :: X) =
    occursIn ['<', '/', 'p', '>', '<', '/', 'p', '>'] (d :: X) := by
  simp [occursIn, isPfx]

theorem sep_peel_ppEmpty {d : Char} (hd : d ≠ '<') (X : List Char) :
    occursIn ['<', 'p', '>', '<', '/', 'p', '>'] ("<br/></p><p>".data ++ d :: X) =
    occursIn ['<', 'p', '>', '<', '/', 'p', '>'] (d :: X) := by
  have e : "<br/></p><p>".data =
      ['<', 'b', 'r', '/', '>', '<', '/', 'p', '>', '<', 'p', '>'] := rfl
  rw [e]
  simp [occursIn, isPfx, Ne.symm hd]

theorem sep_peel_ppOpen {d : Char} (hd : d ≠ '<') (X : List Char) :
    occursIn ['<', 'p', '>', '<', 'p', '>'] ("<br/></p><p>".data ++ d :: X) =
    occursIn ['<', 'p', '>', '<', 'p', '>'] (d :: X) := by
  have e : "<br/></p><p>".data =
      ['<', 'b', 'r', '/', '>', '<', '/', 'p', '>', '<', 'p', '>'] := rfl
  rw [e]
  simp [occursIn, isPfx, Ne.symm hd]

theorem sep_peel_ppOpenAttr {d : Char} (hd : d ≠ '<') (X : List Char) :
    occursIn ['<', 'p', '>', '<', 'p', ' '] ("<br/></p><p>".data ++ d :: X) =
    occursIn ['<', 'p', '>', '<', 'p', ' '] (d :: X) := by
  have e : "<br/></p><p>".data =
      ['<', 'b', 'r', '/', '>', '<', '/', 'p', '>', '<', 'p', '>'] := rfl
  rw [e]
  simp [occursIn, isPfx, Ne.symm hd]

theorem sep_peel_ppClose {d : Char} (hd : d ≠ '<') (X : List Char) :
    occursIn ['<', '/', 'p', '>', '<', '/', 'p', '>'] ("<br/></p><p>".data ++ d :: X) =
    occursIn ['<', '/', 'p', '>', '<', '/', 'p', '>'] (d :: X) := by
  have e : "<br/></p><p>".data =
      ['<', 'b', 'r', '/', '>', '<', '/', 'p', '>', '<', 'p', '>'] := rfl
  rw [e]
  simp [occursIn, isPfx, Ne.symm hd]

theorem interJoin_cons (sep r : List Char) (rest : List (List Char)) :
    ∃ K, interJoin sep (r :: rest) = r ++ K := by
  cases rest with
  | nil => exact ⟨[], by simp [interJoin]⟩
  | cons r' rest' => exact ⟨sep ++ interJoin sep (r' :: rest'), by simp [interJoin]⟩

/-- On a wrapped-and-joined string built from nonempty segments that contain
no `'<'`, a pattern starting with `'<'` that can start neither at the
`"<p>"` opener nor inside a separator does not occur at all. -/
theorem spine_no_occurrence (ps : List Char)
    (wrap : ∀ d : Char, d ≠ '<' → ∀ X : List Char,
      occursIn ('<' :: ps) ('<' :: 'p' :: '>' :: d :: X) = occursIn ('<' :: ps) (d :: X))
    (sepPeel : ∀ d : Char, d ≠ '<' → ∀ X : List Char,
      occursIn ('<' :: ps) ("<br/></p><p>".data ++ d :: X) = occursIn ('<' :: ps) (d :: X))
    (htail : occursIn ('<' :: ps) "</p>".data = false) :
    ∀ segs : List (List Char), segs ≠ [] → (∀ s ∈ segs, s ≠ [] ∧ '<' ∉ s) →
    occursIn ('<' :: ps)
      ('<' :: 'p' :: '>' :: (interJoin "<br/></p><p>".data segs ++ "</p>".data)) = false := by
  intro segs
  induction segs with
  | nil => intro h; exact absurd rfl h
  | cons s rest ih =>
    intro _ hseg
    obtain ⟨hs, hlt⟩ := hseg s (List.mem_cons_self s rest)
    obtain ⟨d, s', rfl⟩ : ∃ d s', s = d :: s' := by
      cases s with
      | nil => exact absurd rfl hs
      | cons d s' => exact ⟨d, s', rfl⟩
    have hd : d ≠ '<' := fun e => hlt (by simp [e])
    have hs' : '<' ∉ s' := fun e => hlt (by simp [e])
    cases rest with
    | nil =>
      have e1 : interJoin "<br/></p><p>".data [d :: s'] = d :: s' := rfl
      rw [e1, List.cons_append, wrap d hd, ← List.cons_append,
        occursIn_skip (by simp [Ne.symm hd, hs'] : '<' ∉ d :: s'), htail]
    | cons r rest' =>
      have e1 : interJoin "<br/></p><p>".data ((d :: s') :: r :: rest') =
          (d :: s') ++ "<br/></p><p>".data ++ interJoin "<br/></p><p>".data (r :: rest') := rfl
      rw [e1]
      obtain ⟨hr, hrlt⟩ := hseg r (by simp)
      obtain ⟨e, r', rfl⟩ : ∃ e r', r = e :: r' := by
        cases r with
        | nil => exact absurd rfl hr
        | cons e r' => exact ⟨e, r', rfl⟩
      have he : e ≠ '<' := fun h => hrlt (by simp [h])
      obtain ⟨K, hK⟩ := interJoin_cons "<br/></p><p>".data (e :: r') rest'
      have ihres := ih (by simp) (fun t ht => hseg t (by simp [ht]))
      rw [hK] at ihres ⊢
      have ihres' : occursIn ('<' :: ps) (((e :: r') ++ K) ++ "</p>".data) = false := by
        have p1 := (occursIn_cons_false ihres).2
        have p2 := (occursIn_cons_false p1).2
        exact (occursIn_cons_false p2).2
      calc occursIn ('<' :: ps)
            ('<' :: 'p' :: '>' ::
              (((d :: s') ++ "<br/></p><p>".data ++ ((e :: r') ++ K)) ++ "</p>".data))
          = occursIn ('<' :: ps)
            ('<' :: 'p' :: '>' :: d ::
              ((s' ++ ("<br/></p><p>".data ++ ((e :: r') ++ K))) ++ "</p>".data)) := by
            simp [List.append_assoc]
        _ = occursIn ('<' :: ps)
            (d :: ((s' ++ ("<br/></p><p>".data ++ ((e :: r') ++ K))) ++ "</p>".data)) := by
            rw [wrap d hd]
        _ = occursIn ('<' :: ps)
            ((d :: s') ++ (("<br/></p><p>".data ++ ((e :: r') ++ K)) ++ "</p>".data)) := by
            simp [List.append_assoc]
        _ = occursIn ('<' :: ps) (("<br/></p><p>".data ++ ((e :: r') ++ K)) ++ "</p>".data) := by
            rw [occursIn_skip (by simp [Ne.symm hd, hs'] : '<' ∉ d :: s')]
        _ = occursIn ('<' :: ps) ("<br/></p><p>".data ++ (e :: (r' ++ K ++ "</p>".data))) := by
            simp [List.append_assoc]
        _ = occursIn ('<' :: ps) (e :: (r' ++ K ++ "</p>".data)) := by
            rw [sepPeel e he]
        _ = occursIn ('<' :: ps) (((e :: r') ++ K) ++ "</p>".data) := by
            simp [List.append_assoc]
        _ = false := ihres'

theorem brReplace_no_lt {s : List Char} (h : '<' ∉ s) : brReplace s = s := by
  have e : brReplace ([] : List Char) = [] := rfl
  have hskip := brReplace_skip h []
  rw [List.append_nil, e, List.append_nil] at hskip
  exact hskip

theorem brReplace_interJoin : ∀ segs : List (List Char),
    (∀ s ∈ segs, '<' ∉ s) →
    brReplace (interJoin "<br>".data segs) = interJoin "<br/></p><p>".data segs := by
  intro segs
  induction segs with
  | nil => intro _; rfl
  | cons s rest ih =>
    intro h
    have hs : '<' ∉ s := h s (by simp)
    cases rest with
    | nil =>
      have e1 : interJoin "<br>".data [s] = s := rfl
      have e2 : interJoin "<br/></p><p>".data [s] = s := rfl
      rw [e1, e2, brReplace_no_lt hs]
    | cons r rest' =>
      have e1 : interJoin "<br>".data (s :: r :: rest') =
          s ++ ("<br>".data ++ interJoin "<br>".data (r :: rest')) := by
        simp [interJoin, List.append_assoc]
      have e2 : interJoin "<br/></p><p>".data (s :: r :: rest') =
          s ++ ("<br/></p><p>".data ++ interJoin "<br/></p><p>".data (r :: rest')) := by
        simp [interJoin, List.append_assoc]
      rw [e1, e2, brReplace_skip hs]
      congr 1
      have e3 : "<br>".data ++ interJoin "<br>".data (r :: rest') =
          '<' :: 'b' :: 'r' :: '>' :: interJoin "<br>".data (r :: rest') := rfl
      rw [e3, brReplace.eq_2]
      congr 1
      exact ih (fun t ht => h t (by simp [ht]))

/-!
Emptiness-side helpers.
-/

theorem stripped_cons_match {s : String} {d : Char} {l : List Char}
    (hdl : (stripped s).data = d :: l) :
    jsMatchNonWs (stripped s) = JSRet.matchV ⟨[d]⟩ ∧ jsWs d = false := by
  have e0 : (stripped s).data = List.filter (fun c => !jsWs c) (removeNbsp s.data) := rfl
  have hdmem : d ∈ (stripped s).data := by rw [hdl]; exact List.mem_cons_self d l
  rw [e0] at hdmem
  have hdws : jsWs d = false := by simpa using (List.mem_filter.mp hdmem).2
  refine ⟨?_, hdws⟩
  unfold jsMatchNonWs
  rw [hdl, List.find?_cons_of_pos _ (by simp [hdws])]

theorem isEmptyJS_false_of_mem (s : String) (c : Char) (hc : c ∈ (stripped s).data)
    (hne1 : c ∉ "<p></p>".data) (hne2 : c ∉ "<p><br></p>".data) :
    isEmptyJS (FieldValue.str s) = false := by
  have hsne : s ≠ "" := by
    intro e
    subst e
    have e0 : (stripped "").data = [] := rfl
    rw [e0] at hc
    exact absurd hc (List.not_mem_nil c)
  have hvne : stripped s ≠ "" := by
    intro e
    rw [e] at hc
    exact absurd hc (List.not_mem_nil c)
  have hv1 : stripped s ≠ "<p></p>" := fun e => hne1 (e ▸ hc)
  have hv2 : stripped s ≠ "<p><br></p>" := fun e => hne2 (e ▸ hc)
  obtain ⟨d, l, hdl⟩ : ∃ d l, (stripped s).data = d :: l := by
    cases hx : (stripped s).data with
    | nil =>
      exfalso
      rw [hx] at hc
      exact absurd hc (List.not_mem_nil c)
    | cons d l => exact ⟨d, l, rfl⟩
  obtain ⟨hmatch, -⟩ := stripped_cons_match hdl
  simp only [isEmptyJS, isSet, if_neg hsne, if_neg hvne, if_neg hv1, if_neg hv2, hmatch,
    truthy, Bool.not_true]

theorem splitRunsAux_inv : ∀ l acc : List Char, (∀ x ∈ acc, isWsComma x = false) →
    ∀ r ∈ splitRunsAux l acc, r ≠ [] ∧ ∀ x ∈ r, isWsComma x = false := by
  intro l
  induction l with
  | nil =>
    intro acc hacc r hr
    simp only [splitRunsAux] at hr
    by_cases ha : acc = []
    · rw [if_pos ha] at hr; exact absurd hr (List.not_mem_nil r)
    · rw [if_neg ha] at hr
      simp only [List.mem_singleton] at hr
      subst hr
      refine ⟨by simpa using ha, ?_⟩
      intro x hx
      exact hacc x (List.mem_reverse.mp hx)
  | cons a l' ih =>
    intro acc hacc r hr
    simp only [splitRunsAux] at hr
    by_cases hsep : isWsComma a
    · rw [if_pos hsep] at hr
      by_cases ha : acc = []
      · rw [if_pos ha] at hr
        exact ih [] (by simp) r hr
      · rw [if_neg ha] at hr
        rcases List.mem_cons.mp hr with h | h
        · subst h
          refine ⟨by simpa using ha, ?_⟩
          intro x hx
          exact hacc x (List.mem_reverse.mp hx)
        · exact ih [] (by simp) r h
    · rw [if_neg hsep] at hr
      refine ih (a :: acc) ?_ r hr
      intro x hx
      rcases List.mem_cons.mp hx with h | h
      · subst h; simpa using hsep
      · exact hacc x h

/-!
## Claim theorems
-/

/-- C1 (corrected, counterexample): the claimed output
`"<p>Hello</p><p>World</p>"` is not what `_textToHtml` produces for the
plain-text input `"Hello<br>World"` — the `<br/>` marker is part of the
join string and stays inside the first paragraph. -/
theorem normalize_br_counterexample :
    textToHtml (fun _ => true) (FieldValue.str "Hello<br>World") ≠
      "<p>Hello</p><p>World</p>" := by decide

/-- C1 (corrected, amended): on the fallback path, `_textToHtml` maps
`"Hello<br>World"` to `"<p>Hello<br/></p><p>World</p>"`: each
line-break-separated segment gets its own paragraph, but a residual
`<br/>` marker remains at the end of every paragraph except the last. -/
theorem normalize_br_amended :
    textToHtml (fun _ => true) (FieldValue.str "Hello<br>World") =
      "<p>Hello<br/></p><p>World</p>" := by decide

/-- C2 (corrected, counterexample): the plain-text input `"&nbsp;</p>"`
contains non-whitespace characters and fails the parse probe (it is an
invalid selector that is not HTML-shaped), yet `isEmpty` of its
normalization is `true`: the fallback wraps it to `"<p>&nbsp;</p></p>"`,
the doubled close tag is merged to give `"<p>&nbsp;</p>"`, and `isSet`
strips `"&nbsp;"` leaving exactly the blank-paragraph sentinel
`"<p></p>"`. -/
theorem isEmpty_normalize_counterexample :
    wsOnly "&nbsp;</p>" = false ∧
    isEmptyJS (FieldValue.str (textToHtml (fun _ => true)
      (FieldValue.str "&nbsp;</p>"))) = true := by decide

/-- C2 (corrected, amended): for every plain-text input on the fallback
path that contains at least one non-whitespace character outside the
markup/entity characters consumed by the normalizer's replacements and by
`isSet`'s stripping (i.e. some character other than
`< `, `p`, `>`, `/`, `b`, `r`, `&`, `n`, `s`, `;`), `isEmpty` of the
normalized value is `false`: such a character survives every replacement
pass and the stripping, so the stripped value is neither empty nor a
blank-paragraph sentinel. -/
theorem isEmpty_normalize_plaintext (oracle : String → Bool) (s : String) (c : Char)
    (hprobe : probeThrows oracle (FieldValue.str s) = true)
    (hc : c ∈ s.data) (hws : jsWs c = false)
    (hset : c ∉ ['<', 'p', '>', '/', 'b', 'r', '&', 'n', 's', ';']) :
    isEmptyJS (FieldValue.str (textToHtml oracle (FieldValue.str s))) = false := by
  simp only [List.mem_cons, not_or] at hset
  obtain ⟨c1, c2, c3, c4, c5, c6, c7, c8, c9, c10, -⟩ := hset
  have csp : c ≠ ' ' := by
    intro e
    rw [e] at hws
    exact absurd hws (by decide)
  have hwsonly : wsOnly s = false := by
    simp only [wsOnly, List.all_eq_false]
    exact ⟨c, hc, by simp [hws]⟩
  have e1 : textToHtml oracle (FieldValue.str s) = textToHtmlFallback s := by
    simp [textToHtml, hprobe, toStringOr]
  have e2 : textToHtmlFallback s =
      ⟨fixClose (fixOpenAttr (fixOpen (removePP
        ("<p>".data ++ brReplace s.data ++ "</p>".data))))⟩ := by
    simp only [textToHtmlFallback, hwsonly]
    rfl
  rw [e1, e2]
  have hin1 : c ∈ brReplace s.data := mem_brReplace c c1 c5 c6 c4 c3 _ hc
  have hin2 : c ∈ "<p>".data ++ brReplace s.data ++ "</p>".data := by
    simp only [List.mem_append]
    exact Or.inl (Or.inr hin1)
  have hin3 := mem_removePP c c1 c2 c3 c4 _ hin2
  have hin4 := mem_fixOpen c c1 c2 c3 _ hin3
  have hin5 := mem_fixOpenAttr c c1 c2 c3 csp _ hin4
  have hin6 := mem_fixClose c c1 c4 c2 c3 _ hin5
  apply isEmptyJS_false_of_mem _ c
  · show c ∈ removeWs (removeNbsp (fixClose (fixOpenAttr (fixOpen (removePP
      ("<p>".data ++ brReplace s.data ++ "</p>".data))))))
    refine List.mem_filter.mpr ⟨?_, by simp [hws]⟩
    exact mem_removeNbsp c c7 c8 c5 c9 c2 c10 _ hin6
  · simp [show "<p></p>".data = ['<', 'p', '>', '<', '/', 'p', '>'] from rfl,
      c1, c2, c3, c4]
  · simp [show "<p><br></p>".data = ['<', 'p', '>', '<', 'b', 'r', '>', '<', '/', 'p', '>'] from rfl,
      c1, c2, c3, c4, c5, c6]

/-- C2 witness: the theorem applied to the plain-text input `"Hello"` with
its ordinary character `'H'`. -/
theorem isEmpty_normalize_witness :
    ('H' ∈ "Hello".data) ∧
    isEmptyJS (FieldValue.str (textToHtml (fun _ => true)
      (FieldValue.str "Hello"))) = false :=
  ⟨by decide, isEmpty_normalize_plaintext (fun _ => true) "Hello" 'H'
    (by decide) (by decide) (by decide) (by decide)⟩

/-- C3 (corrected, counterexample): the doubled-open-tag replacement is a
string-pattern `replace`, so only the first occurrence is merged: for the
fallback input `"a<p><p>b<p><p>c"` (not whitespace-only), the output
`"<p>a<p>b<p><p>c</p>"` still contains `"<p><p>"`. -/
theorem collapse_counterexample :
    wsOnly "a<p><p>b<p><p>c" = false ∧
    occursIn "<p><p>".data
      (textToHtml (fun _ => true) (FieldValue.str "a<p><p>b<p><p>c")).data = true := by decide

/-- C3 (corrected, amended): the collapsing passes are single-pass
(`<p></p>` removal) and first-occurrence-only (tag-doubling merges), so
degenerate artifacts can survive for inputs that themselves contain
paragraph markup; but for every fallback input assembled from nonempty
segments free of `'<'`, joined by `<br>` line-break markers, and not
whitespace-only, the output contains no empty paragraph `"<p></p>"`, no
adjacent open tags `"<p><p>"`, and no adjacent close tags `"</p></p>"`. -/
theorem textToHtmlFallback_collapsed (segs : List (List Char)) (h1 : segs ≠ [])
    (h2 : ∀ s ∈ segs, s ≠ [] ∧ '<' ∉ s)
    (hws : wsOnly ⟨interJoin "<br>".data segs⟩ = false) :
    occursIn "<p></p>".data (textToHtmlFallback ⟨interJoin "<br>".data segs⟩).data = false ∧
    occursIn "<p><p>".data (textToHtmlFallback ⟨interJoin "<br>".data segs⟩).data = false ∧
    occursIn "</p></p>".data (textToHtmlFallback ⟨interJoin "<br>".data segs⟩).data = false := by
  have hw : textToHtmlFallback ⟨interJoin "<br>".data segs⟩ =
      ⟨fixClose (fixOpenAttr (fixOpen (removePP
        ("<p>".data ++ brReplace (interJoin "<br>".data segs) ++ "</p>".data))))⟩ := by
    simp only [textToHtmlFallback, hws]
    rfl
  rw [hw, brReplace_interJoin segs (fun s hs => (h2 s hs).2)]
  set mid := interJoin "<br/></p><p>".data segs with hmid
  have eform : "<p>".data ++ mid ++ "</p>".data = '<' :: 'p' :: '>' :: (mid ++ "</p>".data) := by
    simp
  have occ1 : occursIn ['<', 'p', '>', '<', '/', 'p', '>']
      ('<' :: 'p' :: '>' :: (mid ++ "</p>".data)) = false := by
    exact spine_no_occurrence ['p', '>', '<', '/', 'p', '>']
      (fun d hd X => wrap_peel_ppEmpty hd X)
      (fun d hd X => sep_peel_ppEmpty hd X)
      (by decide) segs h1 h2
  have occ2 : occursIn ['<', 'p', '>', '<', 'p', '>']
      ('<' :: 'p' :: '>' :: (mid ++ "</p>".data)) = false := by
    exact spine_no_occurrence ['p', '>', '<', 'p', '>']
      (fun d hd X => wrap_peel_ppOpen hd X)
      (fun d hd X => sep_peel_ppOpen hd X)
      (by decide) segs h1 h2
  have occ3 : occursIn ['<', 'p', '>', '<', 'p', ' ']
      ('<' :: 'p' :: '>' :: (mid ++ "</p>".data)) = false := by
    exact spine_no_occurrence ['p', '>', '<', 'p', ' ']
      (fun d hd X => wrap_peel_ppOpenAttr hd X)
      (fun d hd X => sep_peel_ppOpenAttr hd X)
      (by decide) segs h1 h2
  have occ4 : occursIn ['<', '/', 'p', '>', '<', '/', 'p', '>']
      ('<' :: 'p' :: '>' :: (mid ++ "</p>".data)) = false := by
    exact spine_no_occurrence ['/', 'p', '>', '<', '/', 'p', '>']
      (fun d _ X => wrap_peel_ppClose d X)
      (fun d hd X => sep_peel_ppClose hd X)
      (by decide) segs h1 h2
  rw [eform, removePP_id occ1, fixOpen_id occ2, fixOpenAttr_id occ3, fixClose_id occ4]
  exact ⟨occ1, occ2, occ4⟩

/-- C3 witness: the amended theorem applied to the two-segment input
`"Hello<br>World"`. -/
theorem collapse_witness :
    occursIn "<p></p>".data
      (textToHtmlFallback ⟨interJoin "<br>".data ["Hello".data, "World".data]⟩).data = false ∧
    occursIn "<p><p>".data
      (textToHtmlFallback ⟨interJoin "<br>".data ["Hello".data, "World".data]⟩).data = false ∧
    occursIn "</p></p>".data
      (textToHtmlFallback ⟨interJoin "<br>".data ["Hello".data, "World".data]⟩).data = false :=
  textToHtmlFallback_collapsed ["Hello".data, "World".data] (by decide) (by decide) (by decide)

/-- C4 (corrected, counterexample): `isSet` does not return a strict
boolean: on the empty string it returns the empty string itself (the
result of the `&&` short-circuit), and on `"<p>hi</p>"` it returns a
regex-match result; neither equals boolean `true` or `false`. -/
theorem isSet_not_boolean_counterexample :
    isSet (FieldValue.str "") = JSRet.strV "" ∧
    isSet (FieldValue.str "") ≠ JSRet.boolV true ∧
    isSet (FieldValue.str "") ≠ JSRet.boolV false ∧
    isSet (FieldValue.str "<p>hi</p>") ≠ JSRet.boolV true ∧
    isSet (FieldValue.str "<p>hi</p>") ≠ JSRet.boolV false := by decide

/-- C4 (corrected, amended): for every field value, `isSet` returns —
without raising — a merely truthy/falsy JS value: `null`, `undefined`,
boolean `false`, the empty string, or a regex-match result; it never
returns boolean `true`, so the spec's `isEmpty` is a strict boolean only
because it is the `!`-negation of this value. -/
theorem isSet_classified : ∀ v : FieldValue,
    isSet v = JSRet.nullV ∨ isSet v = JSRet.undefV ∨ isSet v = JSRet.boolV false ∨
    isSet v = JSRet.strV "" ∨ ∃ m, isSet v = JSRet.matchV m := by
  intro v
  cases v with
  | nullV => exact Or.inl rfl
  | undef => exact Or.inr (Or.inl rfl)
  | jsFalse => exact Or.inr (Or.inr (Or.inl rfl))
  | str s =>
    by_cases hs : s = ""
    · refine Or.inr (Or.inr (Or.inr (Or.inl ?_)))
      simp [isSet, hs]
    · by_cases h1 : stripped s = ""
      · refine Or.inr (Or.inr (Or.inr (Or.inl ?_)))
        simp [isSet, hs, h1]
      · by_cases h2 : stripped s = "<p></p>"
        · refine Or.inr (Or.inr (Or.inl ?_))
          simp [isSet, hs, h1, h2]
        · by_cases h3 : stripped s = "<p><br></p>"
          · refine Or.inr (Or.inr (Or.inl ?_))
            simp [isSet, hs, h1, h2, h3]
          · have e1 : isSet (FieldValue.str s) = jsMatchNonWs (stripped s) := by
              simp [isSet, hs, h1, h2, h3]
            unfold jsMatchNonWs at e1
            cases hfind : (stripped s).data.find? (fun c => !jsWs c) with
            | none => rw [hfind] at e1; exact Or.inl e1
            | some d =>
              rw [hfind] at e1
              exact Or.inr (Or.inr (Or.inr (Or.inr ⟨⟨[d]⟩, e1⟩)))

/-- C5 (confirmed): when an editor is attached, one `destroy` clears the
`ckeditor` reference and invokes the editor's own `destroy()` exactly
once; a second `destroy` is a no-op (idempotence) and in particular does
not invoke the editor's `destroy()` again. -/
theorem destroy_releases_once (w : WidgetState) (e : Nat) (h : w.ckeditor = some e) :
    (destroy w).ckeditor = none ∧ destroy (destroy w) = destroy w ∧
    (destroy w).editorDestroyCount = w.editorDestroyCount + 1 ∧
    (destroy (destroy w)).editorDestroyCount = (destroy w).editorDestroyCount := by
  simp [destroy, h]

/-- C5 witness: the theorem applied to a widget holding editor `0`. -/
theorem destroy_releases_once_witness :
    (destroy ⟨some 0, 0⟩).ckeditor = none ∧
    destroy (destroy ⟨some 0, 0⟩) = destroy ⟨some 0, 0⟩ ∧
    (destroy ⟨some 0, 0⟩).editorDestroyCount = (0 : Nat) + 1 ∧
    (destroy (destroy ⟨some 0, 0⟩)).editorDestroyCount =
      (destroy ⟨some 0, 0⟩).editorDestroyCount :=
  destroy_releases_once ⟨some 0, 0⟩ 0 rfl

/-- C6 (confirmed): a failed configuration fetch, an absent `toolbar`
member, and an empty `toolbar` string all yield the fixed default toolbar
list (the failure is absorbed, never re-raised); a present toolbar string
is split on runs of whitespace and commas with empty items removed, so
every returned item is nonempty and contains no separator character. -/
theorem toolbarItems_config (t : String) (ht : t ≠ "") (item : String)
    (hitem : item ∈ getCKEditorToolbarItems (ConfigResult.ok (some t)))
    (c : Char) (hcitem : c ∈ item.data) :
    getCKEditorToolbarItems ConfigResult.fetchFailure = defaultToolbarItems ∧
    getCKEditorToolbarItems (ConfigResult.ok none) = defaultToolbarItems ∧
    getCKEditorToolbarItems (ConfigResult.ok (some "")) = defaultToolbarItems ∧
    getCKEditorToolbarItems (ConfigResult.ok (some "undo redo,bold")) =
      ["undo", "redo", "bold"] ∧
    item ≠ "" ∧ isWsComma c = false := by
  refine ⟨rfl, rfl, by decide, by decide, ?_, ?_⟩
  all_goals
    simp only [getCKEditorToolbarItems, if_neg ht, List.mem_map] at hitem
    obtain ⟨r, hr, rfl⟩ := hitem
    have hprop := splitRunsAux_inv t.data [] (by simp) r hr
  · intro e
    exact hprop.1 (congrArg String.data e)
  · exact hprop.2 c hcitem

/-- C6 witness: the theorem applied to the toolbar string
`"undo redo,bold"`, its item `"undo"` and that item's character `'u'`. -/
theorem toolbarItems_config_witness :
    getCKEditorToolbarItems ConfigResult.fetchFailure = defaultToolbarItems ∧
    getCKEditorToolbarItems (ConfigResult.ok none) = defaultToolbarItems ∧
    getCKEditorToolbarItems (ConfigResult.ok (some "")) = defaultToolbarItems ∧
    getCKEditorToolbarItems (ConfigResult.ok (some "undo redo,bold")) =
      ["undo", "redo", "bold"] ∧
    "undo" ≠ "" ∧ isWsComma 'u' = false :=
  toolbarItems_config "undo redo,bold" (by decide) "undo" (by decide) 'u' (by decide)

/-- C7 (confirmed): for every empty or whitespace-only input string the
parse probe finds no node (so it throws) and the fallback returns exactly
the single empty paragraph `"<p><br/></p>"`, whatever the probe oracle
says about other strings. -/
theorem normalize_blank (oracle : String → Bool) (s : String) (h : wsOnly s = true) :
    textToHtml oracle (FieldValue.str s) = "<p><br/></p>" := by
  simp [textToHtml, probeThrows, h, toStringOr, textToHtmlFallback]

/-- C7 witness: the theorem applied to the all-blank string `"   "`. -/
theorem normalize_blank_witness :
    textToHtml (fun _ => false) (FieldValue.str "   ") = "<p><br/></p>" :=
  normalize_blank (fun _ => false) "   " (by decide)

/-- C8 (confirmed): after stripping the literal `"&nbsp;"` entity and all
whitespace, `isEmpty` is `true` exactly when the remainder is empty, the
sentinel `"<p></p>"`, the sentinel `"<p><br></p>"`, or has no
non-whitespace character; in particular on `"<p></p>"`, `"<p><br></p>"`
and `"&nbsp;"` it is `true`, and on `"<p>hi</p>"` it is `false`. -/
theorem isEmpty_characterized :
    (∀ s : String, isEmptyJS (FieldValue.str s) = true ↔
      (stripped s = "" ∨ stripped s = "<p></p>" ∨ stripped s = "<p><br></p>" ∨
        ∀ c ∈ (stripped s).data, jsWs c = true)) ∧
    isEmptyJS (FieldValue.str "<p></p>") = true ∧
    isEmptyJS (FieldValue.str "<p><br></p>") = true ∧
    isEmptyJS (FieldValue.str "<p>hi</p>") = false ∧
    isEmptyJS (FieldValue.str "&nbsp;") = true := by
  refine ⟨?_, by decide, by decide, by decide, by decide⟩
  intro s
  by_cases hs : s = ""
  · subst hs
    have e1 : isEmptyJS (FieldValue.str "") = true := by decide
    have e2 : stripped "" = "" := rfl
    simp [e1, e2]
  · by_cases h1 : stripped s = ""
    · have e1 : isEmptyJS (FieldValue.str s) = true := by
        simp [isEmptyJS, isSet, hs, h1, truthy]
      simp [e1, h1]
    · by_cases h2 : stripped s = "<p></p>"
      · have e1 : isEmptyJS (FieldValue.str s) = true := by
          simp [isEmptyJS, isSet, hs, h1, h2, truthy]
        simp [e1, h2]
      · by_cases h3 : stripped s = "<p><br></p>"
        · have e1 : isEmptyJS (FieldValue.str s) = true := by
            simp [isEmptyJS, isSet, hs, h1, h2, h3, truthy]
          simp [e1, h3]
        · obtain ⟨d, l, hdl⟩ : ∃ d l, (stripped s).data = d :: l := by
            cases hx : (stripped s).data with
            | nil =>
              exfalso
              apply h1
              have e0 : stripped s = ⟨(stripped s).data⟩ := rfl
              rw [hx] at e0
              exact e0
            | cons d l => exact ⟨d, l, rfl⟩
          obtain ⟨hmatch, hdws⟩ := stripped_cons_match hdl
          have e1 : isEmptyJS (FieldValue.str s) = false := by
            simp only [isEmptyJS, isSet, if_neg hs, if_neg h1, if_neg h2, if_neg h3,
              hmatch, truthy, Bool.not_true]
          rw [e1]
          simp only [Bool.false_eq_true, false_iff]
          intro hcon
          rcases hcon with h | h | h | h
          · exact h1 h
          · exact h2 h
          · exact h3 h
          · have hd2 := h d (by rw [hdl]; exact List.mem_cons_self d l)
            rw [hdws] at hd2
            exact absurd hd2 (by simp)

/-- C9 (confirmed): whenever the parse probe succeeds (the input already
parses as an HTML fragment), `_textToHtml` returns the input unchanged; in
particular it is a fixed point, so normalizing twice equals normalizing
once. -/
theorem normalize_html_fixed (oracle : String → Bool) (s : String)
    (h : probeThrows oracle (FieldValue.str s) = false) :
    textToHtml oracle (FieldValue.str s) = s ∧
    textToHtml oracle (FieldValue.str (textToHtml oracle (FieldValue.str s))) =
      textToHtml oracle (FieldValue.str s) := by
  have e : textToHtml oracle (FieldValue.str s) = s := by
    simp [textToHtml, h, toStringOr]
  exact ⟨e, by rw [e]; exact e⟩

/-- C9 witness: the theorem applied to `"<p>Hello</p>"` with an oracle
under which it parses, giving `normalize("<p>Hello</p>") =
"<p>Hello</p>"` and idempotence at that input. -/
theorem normalize_html_fixed_witness :
    textToHtml (fun _ => false) (FieldValue.str "<p>Hello</p>") = "<p>Hello</p>" ∧
    textToHtml (fun _ => false)
        (FieldValue.str (textToHtml (fun _ => false) (FieldValue.str "<p>Hello</p>"))) =
      textToHtml (fun _ => false) (FieldValue.str "<p>Hello</p>") :=
  normalize_html_fixed (fun _ => false) "<p>Hello</p>" (by decide)

/-- C10 (confirmed): every falsy input (`null`, `undefined`, `false`, or
the empty string) is coerced to `""` by `text || ""`, the probe throws on
it, and `_textToHtml` returns `"<p><br/></p>"` without raising. -/
theorem normalize_falsy (oracle : String → Bool) (v : FieldValue)
    (h : jsFalsy v = true) : textToHtml oracle v = "<p><br/></p>" := by
  cases v with
  | str s =>
    have hs : s = "" := of_decide_eq_true h
    subst hs
    rfl
  | nullV => rfl
  | undef => rfl
  | jsFalse => rfl

/-- C10 witness: the theorem applied to the `null` field value. -/
theorem normalize_falsy_witness :
    textToHtml (fun _ => false) FieldValue.nullV = "<p><br/></p>" :=
  normalize_falsy (fun _ => false) FieldValue.nullV (by decide)

end WebWidgetCKEditor
